import Mathlib

/-!
A shallow embedding of the extraction-and-reconciliation engine of
`src/webdriver-macos.py`: the pattern-based field extraction
(`extract_number`, `extract_serving_size` over `NUTRITION_PATTERNS`),
the product-name inference (`find_product_name`), the inline variant
reconciler and page loop of `process_page_content`, and the registry
store (`load_existing_data` / `save_to_csv`).

Strings are modelled as Lean `String`s; Python `str.lower`/`str.strip`
and the regular-expression classes (`\d`, `\s`) are modelled over their
ASCII behaviour, which covers every pattern and sentinel in the source.
The `re` module is embedded as a small backtracking matcher with
CPython preference order: leftmost start position, leftmost alternative
first, greedy repetition.
-/

namespace Scrape

/-- Python whitespace (`str.strip`, regex `\s`): space, tab, newline,
carriage return, vertical tab (11), form feed (12). -/
def isPySpace (c : Char) : Bool :=
  c == ' ' || c == '\t' || c == '\n' || c == '\r' || c.toNat == 11 || c.toNat == 12

/-- Python `str.strip()` on a character list. -/
def stripChars (l : List Char) : List Char :=
  ((l.dropWhile isPySpace).reverse.dropWhile isPySpace).reverse

/-- Python `str.strip()`. -/
def pyStrip (s : String) : String := String.mk (stripChars s.data)

/-- Python `str.lower()` (ASCII range; all pattern letters are ASCII). -/
def lowerStr (s : String) : String := String.mk (s.data.map Char.toLower)

/-- Python `x or default` for an optional string: both `None` and `""` are falsy. -/
def orDefault (v : Option String) (d : String) : String :=
  match v with
  | none => d
  | some s => if s = "" then d else s

/-- Python truthiness of an optional string. -/
def pyTruthy (v : Option String) : Bool :=
  match v with
  | none => false
  | some s => s != ""

/-- The fragment of Python regular expressions used by `NUTRITION_PATTERNS`:
character classes, concatenation, alternation, greedy repetition and the
word boundary `\b`.  `x+` and `x?` are derived forms. -/
inductive Rx where
  | eps : Rx
  | cls (accept : Char → Bool) : Rx
  | seq (a b : Rx) : Rx
  | alt (a b : Rx) : Rx
  | star (r : Rx) : Rx
  | wb : Rx

/-- Word characters for `\b`: `[A-Za-z0-9_]`. -/
def isWordChar (c : Char) : Bool := c.isAlphanum || c == '_'

/-- `\b` holds between the previous character (none at start) and the rest. -/
def atBoundary (prev : Option Char) (s : List Char) : Bool :=
  let a := match prev with | some c => isWordChar c | none => false
  let b := match s with | c :: _ => isWordChar c | [] => false
  a != b

/-- Backtracking matcher in continuation style.  `mrx fuel r prev s k`
tries to match `r` at the start of `s` (with `prev` the character before
`s`, for `\b`) and calls `k` on the rest; the returned list is the full
consumed text (CPython `match.group()` of `r` followed by whatever `k`
consumed).  Preference order mirrors CPython `re`: in `alt`, the left
alternative first; in `star`, more iterations first.  `fuel` decreases
on every call, making the recursion structural; a `star` unrolling that
consumes nothing is cut off, so along any backtracking path at most
`s.length` unrollings occur and between two of them the calls descend
the pattern structure.  Hence `mrxFuel` below is never exhausted and
the fuel does not alter the matched result. -/
def mrx : Nat → Rx → Option Char → List Char →
    (Option Char → List Char → Option (List Char)) → Option (List Char)
  | 0, _, _, _, _ => none
  | _ + 1, .eps, p, s, k => k p s
  | _ + 1, .cls f, _, s, k =>
    match s with
    | [] => none
    | c :: t => if f c then (k (some c) t).map (fun r => c :: r) else none
  | fuel + 1, .seq a b, p, s, k => mrx fuel a p s (fun p2 s2 => mrx fuel b p2 s2 k)
  | fuel + 1, .alt a b, p, s, k =>
    match mrx fuel a p s k with
    | some r => some r
    | none => mrx fuel b p s k
  | fuel + 1, .star r, p, s, k =>
    match mrx fuel r p s
        (fun p2 s2 => if s2.length < s.length then mrx fuel (.star r) p2 s2 k else none) with
    | some res => some res
    | none => k p s
  | _ + 1, .wb, p, s, k => if atBoundary p s then k p s else none

/-- Size of a pattern, used to compute a sufficient fuel. -/
def rxSize : Rx → Nat
  | .eps => 1
  | .cls _ => 1
  | .seq a b => rxSize a + rxSize b + 1
  | .alt a b => rxSize a + rxSize b + 1
  | .star r => rxSize r + 1
  | .wb => 1

/-- Fuel sufficient for matching `r` against `s`: every call path
descends the pattern between character consumptions. -/
def mrxFuel (r : Rx) (s : List Char) : Nat := (rxSize r + 2) * (s.length + 2)

/-- `re.search` scanning loop: try a match at each start position, left to
right; return the consumed text of the first success (`match.group()`). -/
def searchFrom (r : Rx) : Option Char → List Char → Option (List Char)
  | p, [] => mrx (mrxFuel r []) r p [] (fun _ _ => some [])
  | p, c :: t =>
    match mrx (mrxFuel r (c :: t)) r p (c :: t) (fun _ _ => some []) with
    | some res => some res
    | none => searchFrom r (some c) t

/-- `re.search(pattern, text)` on a whole text: the matched text, if any. -/
def reSearch (r : Rx) (s : List Char) : Option (List Char) := searchFrom r none s

/-- A single literal character. -/
def chrRx (c : Char) : Rx := .cls (fun x => x == c)

/-- A literal string. -/
def lit (s : String) : Rx := s.data.foldr (fun c r => .seq (chrRx c) r) .eps

/-- `x+`. -/
def rxPlus (r : Rx) : Rx := .seq r (.star r)

/-- `x?` (greedy: presence preferred). -/
def rxOpt (r : Rx) : Rx := .alt r .eps

/-- Concatenation of a pattern list. -/
def cat (rs : List Rx) : Rx := rs.foldr .seq .eps

/-- Alternation of a nonempty pattern list, left preferred. -/
def altList : List Rx → Rx
  | [] => .cls (fun _ => false)
  | [r] => r
  | r :: rs => .alt r (altList rs)

/-- `\d` (ASCII digits). -/
def digitRx : Rx := .cls Char.isDigit

/-- `\s`. -/
def spaceRx : Rx := .cls isPySpace

/-- `[\s:]`. -/
def spaceColonRx : Rx := .cls (fun c => isPySpace c || c == ':')

/-- `[^,\n]`. -/
def noCommaNlRx : Rx := .cls (fun c => !(c == ',' || c == '\n'))

/-- `\d+(?:\.\d+)?`, the number shape searched inside a matched span. -/
def numberRx : Rx := .seq (rxPlus digitRx) (rxOpt (.seq (chrRx '.') (rxPlus digitRx)))

/-- `(?:calories|cals?|kcals?|cal\b)`. -/
def caloriesAlt : Rx :=
  altList [lit "calories", .seq (lit "cal") (rxOpt (chrRx 's')),
           .seq (lit "kcal") (rxOpt (chrRx 's')), .seq (lit "cal") .wb]

/-- `NUTRITION_PATTERNS['calories']`. -/
def caloriesPatterns : List Rx :=
  [cat [rxPlus digitRx, .star spaceRx, caloriesAlt],
   cat [caloriesAlt, rxPlus spaceColonRx, rxPlus digitRx],
   cat [lit "energy", rxPlus spaceColonRx, rxPlus digitRx, .star spaceRx,
        altList [lit "kcal", lit "cal"]],
   cat [lit "energy", .star spaceRx, lit "(kcal)", rxPlus spaceColonRx, rxPlus digitRx]]

/-- `NUTRITION_PATTERNS['protein']`. -/
def proteinPatterns : List Rx :=
  [cat [numberRx, .star spaceRx,
        altList [cat [chrRx 'g', rxPlus spaceRx, lit "protein"],
                 cat [chrRx 'g', rxPlus spaceRx, lit "prot"],
                 lit "protein", lit "prot"],
        rxOpt (.seq (.star spaceRx) (chrRx 'g'))],
   cat [altList [lit "protein", lit "prot"], rxPlus spaceColonRx, numberRx,
        .star spaceRx, rxOpt (chrRx 'g')],
   cat [lit "protein", .star spaceRx, lit "content", rxPlus spaceColonRx, numberRx,
        .star spaceRx, rxOpt (chrRx 'g')]]

/-- `NUTRITION_PATTERNS['carbs']`. -/
def carbsPatterns : List Rx :=
  [cat [numberRx, .star spaceRx,
        altList [cat [chrRx 'g', rxPlus spaceRx, lit "carb", rxOpt (chrRx 's')],
                 .seq (lit "carb") (rxOpt (chrRx 's')),
                 .seq (lit "carbohydrate") (rxOpt (chrRx 's')),
                 cat [lit "total", rxPlus spaceRx, lit "carb", rxOpt (chrRx 's')]],
        rxOpt (.seq (.star spaceRx) (chrRx 'g'))],
   cat [altList [.seq (lit "carb") (rxOpt (chrRx 's')),
                 .seq (lit "carbohydrate") (rxOpt (chrRx 's')),
                 cat [lit "total", rxPlus spaceRx, lit "carb", rxOpt (chrRx 's')]],
        rxPlus spaceColonRx, numberRx, .star spaceRx, rxOpt (chrRx 'g')],
   cat [lit "total", rxPlus spaceRx, lit "carbohydrate", rxPlus spaceColonRx, numberRx,
        .star spaceRx, rxOpt (chrRx 'g')]]

/-- `NUTRITION_PATTERNS['fat']`. -/
def fatPatterns : List Rx :=
  [cat [numberRx, .star spaceRx,
        altList [cat [chrRx 'g', rxPlus spaceRx, lit "fat"],
                 .seq (lit "fat") (rxOpt (chrRx 's')),
                 cat [lit "total", rxPlus spaceRx, lit "fat"]],
        rxOpt (.seq (.star spaceRx) (chrRx 'g'))],
   cat [altList [.seq (lit "fat") (rxOpt (chrRx 's')),
                 cat [lit "total", rxPlus spaceRx, lit "fat"]],
        rxPlus spaceColonRx, numberRx, .star spaceRx, rxOpt (chrRx 'g')],
   cat [lit "total", rxPlus spaceRx, lit "fat", rxPlus spaceRx, lit "content",
        rxPlus spaceColonRx, numberRx, .star spaceRx, rxOpt (chrRx 'g')]]

/-- `NUTRITION_PATTERNS['serving_size']`. -/
def servingPatterns : List Rx :=
  [cat [lit "serving", rxPlus spaceRx, lit "size", rxPlus spaceColonRx, rxPlus noCommaNlRx],
   cat [lit "per", rxPlus spaceRx, lit "serving", rxPlus spaceColonRx, rxPlus noCommaNlRx],
   cat [lit "portion", rxPlus spaceRx, lit "size", rxPlus spaceColonRx, rxPlus noCommaNlRx]]

/-- The pattern-list loop of `extract_number`: first pattern that matches
and whose span contains a number wins. -/
def extractNumLoop (t : List Char) : List Rx → Option String
  | [] => none
  | p :: ps =>
    match reSearch p t with
    | some grp =>
      match reSearch numberRx grp with
      | some num => some (String.mk num)
      | none => extractNumLoop t ps
    | none => extractNumLoop t ps

/-- `extract_number(text, patterns)` from the source: lower-case the text,
scan the ordered pattern list, and return the first number-like substring
of the first matching span. -/
def extract_number (text : String) (patterns : List Rx) : Option String :=
  if text = "" then none
  else extractNumLoop (lowerStr text).data patterns

/-- `^(serving size|per serving|portion size)[\s:]+`, the label stripped
off a serving-size match by `re.sub`. -/
def labelRx : Rx :=
  .seq (altList [lit "serving size", lit "per serving", lit "portion size"])
    (rxPlus spaceColonRx)

/-- `re.sub` with the anchored label pattern: drop the matched prefix, if any. -/
def stripLabel (s : List Char) : List Char :=
  match mrx (mrxFuel labelRx s) labelRx none s (fun _ _ => some []) with
  | some con => s.drop con.length
  | none => s

/-- The pattern-list loop of `extract_serving_size`. -/
def servingLoop (t : List Char) : List Rx → Option String
  | [] => none
  | p :: ps =>
    match reSearch p t with
    | some grp => some (String.mk (stripChars (stripLabel grp)))
    | none => servingLoop t ps

/-- `extract_serving_size(text, patterns)` from the source: lower-case the
text, take the first matching span, strip the label prefix and trim. -/
def extract_serving_size (text : String) (patterns : List Rx) : Option String :=
  if text = "" then none
  else servingLoop (lowerStr text).data patterns

/-- Python slice `l[a:b]` (indices clamped, empty when `a ≥ b`). -/
def pySlice (l : List String) (a b : Nat) : List String := (l.take b).drop a

/-- The candidate filter of `find_product_name`: after stripping, the line
is non-empty, longer than 3 characters and contains no digit. -/
def nameOk (s : String) : Bool :=
  s != "" && s.length > 3 && !(s.data.any Char.isDigit)

/-- `find_product_name(lines, current_index, window_size=5)` from the
source: collect the qualifying stripped lines of
`lines[max(0, i-w) : i]`; if none and `i+1 < len(lines)`, collect those
of `lines[i+1 : min(len(lines), i+w)]`; return the last one collected. -/
def find_product_name (lines : List String) (current_index : Nat)
    (window_size : Nat := 5) : Option String :=
  let prevNames := ((pySlice lines (current_index - window_size) current_index).map pyStrip).foldl
      (fun acc l => if nameOk l then acc ++ [l] else acc) []
  let names :=
    if prevNames.isEmpty && current_index + 1 < lines.length then
      ((pySlice lines (current_index + 1) (min lines.length (current_index + window_size))).map
          pyStrip).foldl
        (fun acc l => if nameOk l then acc ++ [l] else acc) prevNames
    else prevNames
  names.getLast?

/-- The qualifying candidates of a window, in the spec's phrasing: the
trimmed lines that are non-empty, longer than 3 characters and contain
no digit, in original order. -/
def candidateLines (l : List String) : List String := (l.map pyStrip).filter nameOk

/-- The name-inference rule as claim C6 describes it, parameterized by
the size `fw` of the following window: last qualifying candidate of the
up-to-5 lines preceding `i`, else last qualifying candidate of the
up-to-`fw` lines following `i`. -/
def inferNameDescr (lines : List String) (i : Nat) (fw : Nat) : Option String :=
  match (candidateLines (pySlice lines (i - 5) i)).getLast? with
  | some n => some n
  | none => (candidateLines (pySlice lines (i + 1) (i + 1 + fw))).getLast?

/-- `rxAvoid ch r`: no character class of `r` accepts `ch`, hence no
match of `r` can consume `ch`. -/
def rxAvoid (ch : Char) : Rx → Bool
  | .eps => true
  | .cls f => !f ch
  | .seq a b => rxAvoid ch a && rxAvoid ch b
  | .alt a b => rxAvoid ch a && rxAvoid ch b
  | .star r => rxAvoid ch r
  | .wb => true

/-- `ProductRecord`: one entry of the registry, one row of the CSV. -/
structure ProductRecord where
  name : String
  calories : String
  protein : String
  carbs : String
  fat : String
  serving_size : String
  last_updated : String
  source_url : String
deriving Repr, DecidableEq

/-- The in-memory registry `products_data`: a Python dict from product
name to record, modelled as an insertion-ordered association list. -/
abbrev Registry := List (String × ProductRecord)

/-- Python dict lookup. -/
def dictGet (reg : Registry) (k : String) : Option ProductRecord :=
  match reg with
  | [] => none
  | (k2, v) :: t => if k2 = k then some v else dictGet t k

/-- Python dict assignment `d[k] = v`: update in place, else append. -/
def dictSet (reg : Registry) (k : String) (v : ProductRecord) : Registry :=
  match reg with
  | [] => [(k, v)]
  | (k2, v2) :: t => if k2 = k then (k2, v) :: t else (k2, v2) :: dictSet t k v

/-- The signature f-string for freshly extracted values (line 186):
absent fields render through `or 'NA'`. -/
def valuesSig (cal prot carb fatv : Option String) : String :=
  "cal" ++ orDefault cal "NA" ++ "_p" ++ orDefault prot "NA" ++
    "_c" ++ orDefault carb "NA" ++ "_f" ++ orDefault fatv "NA"

/-- The signature f-string of a stored record (lines 192, 199):
`dict.get(field, 'NA')` where every stored record has all four fields. -/
def recordSig (r : ProductRecord) : String :=
  "cal" ++ r.calories ++ "_p" ++ r.protein ++ "_c" ++ r.carbs ++ "_f" ++ r.fat

/-- `f"{base_name} (Variant {suffix})"`. -/
def variantName (base : String) (suffix : Nat) : String :=
  base ++ " (Variant " ++ toString suffix ++ ")"

/-- The `while` loop of lines 196-208: scan suffixes upward; reuse the
first variant slot whose stored signature matches, or take the first
absent slot (the loop's `else` clause).  `fuel = reg.length + 1` can
never run out: suffix names are pairwise distinct, so a registry with
`reg.length` keys cannot contain `reg.length + 1` of them
(`variantLoop_fuel_sufficient` below). -/
def variantLoop (reg : Registry) (base : String) (sig : String) : Nat → Nat → String
  | 0, suffix => variantName base suffix
  | fuel + 1, suffix =>
    match dictGet reg (variantName base suffix) with
    | none => variantName base suffix
    | some v =>
      if recordSig v = sig then variantName base suffix
      else variantLoop reg base sig fuel (suffix + 1)

/-- The record written by the upsert of lines 211-220: absent fields
(and Python-falsy empty strings) store the `'N/A'` sentinel. -/
def mkRecord (nm : String) (cal prot carb fatv serv : Option String)
    (url now : String) : ProductRecord :=
  { name := nm
    calories := orDefault cal "N/A"
    protein := orDefault prot "N/A"
    carbs := orDefault carb "N/A"
    fat := orDefault fatv "N/A"
    serving_size := orDefault serv "N/A"
    last_updated := now
    source_url := url }

/-- The variant reconciler: the inline block of `process_page_content`,
lines 185-220, for one attributed data line.  Wall-clock time
(`time.strftime`) and the page URL enter as parameters.  Returns the
effective name and the updated registry. -/
def reconcile (reg : Registry) (base : String) (cal prot carb fatv serv : Option String)
    (url now : String) : String × Registry :=
  let curSig := valuesSig cal prot carb fatv
  let eff :=
    match dictGet reg base with
    | none => base
    | some ex =>
      if recordSig ex = curSig then base
      else variantLoop reg base curSig (reg.length + 1) 1
  (eff, dictSet reg eff (mkRecord eff cal prot carb fatv serv url now))

/-- The loop state of `process_page_content`: the carry-over
`current_product`, the registry, and `products_found_on_page`. -/
structure PageState where
  current : Option String
  reg : Registry
  count : Nat
deriving Repr, DecidableEq

/-- One iteration of the `for i, line in enumerate(lines)` loop
(lines 166-228).  A blank line is skipped (`continue`) before anything
else; a non-blank line with no extracted field resets the carry-over;
a data line without an attributable name is skipped. -/
def procLine (lines : List String) (url now : String) (st : PageState)
    (i : Nat) (rawLine : String) : PageState :=
  let line := pyStrip rawLine
  if line = "" then st
  else
    let cal := extract_number line caloriesPatterns
    let prot := extract_number line proteinPatterns
    let carb := extract_number line carbsPatterns
    let fatv := extract_number line fatPatterns
    let serv := extract_serving_size line servingPatterns
    if pyTruthy cal || pyTruthy prot || pyTruthy carb || pyTruthy fatv || pyTruthy serv then
      let prod := if pyTruthy st.current then st.current else find_product_name lines i
      match prod with
      | none => st
      | some base =>
        if base = "" then st
        else
          let er := reconcile st.reg base cal prot carb fatv serv url now
          { current := some er.1, reg := er.2, count := st.count + 1 }
    else
      { st with current := none }

/-- The whole per-line loop of `process_page_content` over a page's lines. -/
def processLines (lines : List String) (reg : Registry) (url now : String) : PageState :=
  lines.enum.foldl (fun st p => procLine lines url now st p.1 p.2) ⟨none, reg, 0⟩

/-- `save_to_csv(products_data)`: the rows are the registry values in
insertion order.  Any write error is caught inside this function
(lines 148-149); it is modelled by the write outcome parameter, and a
failure writes nothing.  Modelled from the spec: the pandas
`to_csv`/`read_csv` pair is the external persistent-store collaborator,
which per spec section 6 serializes the rows verbatim; the returned row
list stands for the file content. -/
def save_to_csv (reg : Registry) (writeRes : Except String Unit) :
    Option (List ProductRecord) :=
  match writeRes with
  | .ok _ => some (reg.map Prod.snd)
  | .error _ => none

/-- `load_existing_data()`: build the registry keyed by `row['name']`
from the stored rows.  Modelled from the spec: `pd.read_csv` returns
the stored rows verbatim (spec section 6); the dict comprehension is
the fold. -/
def load_existing_data (rows : List ProductRecord) : Registry :=
  rows.foldl (fun acc r => dictSet acc r.name r) []

/-- `process_page_content(driver, products_data, current_url)`: the
driver text fetch (lines 156-161) and the CSV write are the only
operations that can raise; they enter as outcome parameters.  A fetch
failure is caught by the `except` of lines 237-239 and yields count 0;
a write failure is caught inside `save_to_csv` and does not change the
returned count.  Returns the count, the final registry, and the rows
written to the store (none if nothing was written). -/
def process_page_content (fetch : Except String (List String)) (reg : Registry)
    (url now : String) (writeRes : Except String Unit) :
    Nat × Registry × Option (List ProductRecord) :=
  match fetch with
  | .error _ => (0, reg, none)
  | .ok lines =>
    let st := processLines lines reg url now
    if st.count > 0 then (st.count, st.reg, save_to_csv st.reg writeRes)
    else (st.count, st.reg, none)

/-! ### Shared helper lemmas -/

theorem strAppend_assoc (a b c : String) : a ++ b ++ c = a ++ (b ++ c) := by
  apply String.ext
  simp [String.data_append, List.append_assoc]

theorem ne_append_of_ne {a b : String} (hl : a.length = b.length) (hne : a ≠ b)
    (s t : String) : a ++ s ≠ b ++ t := by
  intro h
  apply hne
  have hd : a.data ++ s.data = b.data ++ t.data := by
    have := congrArg String.data h
    simpa [String.data_append] using this
  exact String.ext (List.append_inj_left hd hl)

theorem orDefault_ne_empty (v : Option String) : orDefault v "N/A" ≠ "" := by
  cases v with
  | none => simp [orDefault]
  | some s =>
    simp only [orDefault]
    split
    · simp
    · assumption

theorem dictGet_dictSet_self (reg : Registry) (k : String) (v : ProductRecord) :
    dictGet (dictSet reg k v) k = some v := by
  induction reg with
  | nil => simp [dictGet, dictSet]
  | cons h t ih =>
    by_cases hk : h.1 = k
    · simp [dictGet, dictSet, hk]
    · simp [dictGet, dictSet, hk, ih]

theorem dictSet_of_absent (reg : Registry) (k : String) (v : ProductRecord)
    (h : dictGet reg k = none) : dictSet reg k v = reg ++ [(k, v)] := by
  induction reg with
  | nil => simp [dictSet]
  | cons hd t ih =>
    simp only [dictGet] at h
    by_cases hk : hd.1 = k
    · simp [hk] at h
    · have h2 : dictGet t k = none := by simpa [hk] using h
      simp [dictSet, hk, ih h2]

theorem dictGet_append_of_none (a b : Registry) (k : String)
    (h : dictGet a k = none) : dictGet (a ++ b) k = dictGet b k := by
  induction a with
  | nil => simp
  | cons hd t ih =>
    simp only [dictGet] at h ⊢
    by_cases hk : hd.1 = k
    · simp [hk] at h
    · simp only [List.cons_append, dictGet, if_neg hk]
      exact ih (by simpa [hk] using h)

theorem load_save_aux (reg : Registry)
    (hname : ∀ p ∈ reg, (Prod.snd p).name = p.1)
    (hnodup : (reg.map Prod.fst).Nodup) :
    ∀ acc : Registry, (∀ p ∈ reg, dictGet acc p.1 = none) →
      (reg.map Prod.snd).foldl (fun a r => dictSet a r.name r) acc = acc ++ reg := by
  induction reg with
  | nil => intro acc _; simp
  | cons hd tl ih =>
    intro acc hdisj
    obtain ⟨k, v⟩ := hd
    have hvk : v.name = k := hname (k, v) (by simp)
    have hak : dictGet acc k = none := hdisj (k, v) (by simp)
    have hn : k ∉ tl.map Prod.fst ∧ (tl.map Prod.fst).Nodup := by
      rw [List.map_cons] at hnodup
      exact List.nodup_cons.mp hnodup
    simp only [List.map_cons, List.foldl_cons, hvk]
    rw [dictSet_of_absent acc k v hak]
    rw [ih (fun p hp => hname p (by simp [hp])) hn.2 (acc ++ [(k, v)])
        (fun p hp => by
          rw [dictGet_append_of_none _ _ _ (hdisj p (by simp [hp]))]
          have hpk : k ≠ p.1 := by
            intro he
            exact hn.1 (he ▸ List.mem_map_of_mem Prod.fst hp)
          simp [dictGet, hpk])]
    simp

theorem mrx_avoid (ch : Char) :
    ∀ (fuel : Nat) (r : Rx) (p : Option Char) (s : List Char)
      (k : Option Char → List Char → Option (List Char)),
      rxAvoid ch r = true →
      (∀ p2 s2 res, k p2 s2 = some res → ch ∉ res) →
      ∀ res, mrx fuel r p s k = some res → ch ∉ res := by
  intro fuel
  induction fuel with
  | zero => intro r p s k _ _ res h; simp [mrx] at h
  | succ n ih =>
    intro r p s k hr hk res h
    cases r with
    | eps => exact hk _ _ _ h
    | cls f =>
      cases s with
      | nil => simp [mrx] at h
      | cons c t =>
        simp only [mrx] at h
        by_cases hf : f c
        · rw [if_pos hf] at h
          obtain ⟨res2, hres2, hmap⟩ := Option.map_eq_some'.mp h
          subst hmap
          intro hmem
          rcases List.mem_cons.mp hmem with he | hm
          · subst he
            simp only [rxAvoid] at hr
            rw [hf] at hr
            simp at hr
          · exact hk _ _ _ hres2 hm
        · rw [if_neg hf] at h
          simp at h
    | seq a b =>
      simp only [mrx] at h
      simp only [rxAvoid, Bool.and_eq_true] at hr
      exact ih a p s _ hr.1
        (fun p2 s2 res2 h2 => ih b p2 s2 k hr.2 hk res2 h2) res h
    | alt a b =>
      simp only [mrx] at h
      simp only [rxAvoid, Bool.and_eq_true] at hr
      cases hm : mrx n a p s k with
      | some r2 =>
        rw [hm] at h
        cases h
        exact ih a p s k hr.1 hk res hm
      | none =>
        rw [hm] at h
        exact ih b p s k hr.2 hk res h
    | star r =>
      simp only [mrx] at h
      simp only [rxAvoid] at hr
      cases hm : mrx n r p s
          (fun p2 s2 => if s2.length < s.length then mrx n (.star r) p2 s2 k else none) with
      | some r2 =>
        rw [hm] at h
        cases h
        refine ih r p s _ hr ?_ res hm
        intro p2 s2 res2 h2
        by_cases hlt : s2.length < s.length
        · rw [if_pos hlt] at h2
          exact ih (.star r) p2 s2 k (by simpa [rxAvoid] using hr) hk res2 h2
        · rw [if_neg hlt] at h2
          simp at h2
      | none =>
        rw [hm] at h
        exact hk _ _ _ h
    | wb =>
      simp only [mrx] at h
      by_cases hb : atBoundary p s
      · rw [if_pos hb] at h
        exact hk _ _ _ h
      · rw [if_neg hb] at h
        simp at h

theorem mrx_chars (P : Char → Prop) :
    ∀ (fuel : Nat) (r : Rx) (p : Option Char) (s : List Char)
      (k : Option Char → List Char → Option (List Char)),
      (∀ c ∈ s, P c) →
      (∀ p2 s2, (∀ c ∈ s2, P c) → ∀ res, k p2 s2 = some res → ∀ c ∈ res, P c) →
      ∀ res, mrx fuel r p s k = some res → ∀ c ∈ res, P c := by
  intro fuel
  induction fuel with
  | zero => intro r p s k _ _ res h; simp [mrx] at h
  | succ n ih =>
    intro r p s k hs hk res h
    cases r with
    | eps => exact hk _ _ hs _ h
    | cls f =>
      cases s with
      | nil => simp [mrx] at h
      | cons c t =>
        simp only [mrx] at h
        by_cases hf : f c
        · rw [if_pos hf] at h
          obtain ⟨res2, hres2, hmap⟩ := Option.map_eq_some'.mp h
          subst hmap
          intro d hmem
          rcases List.mem_cons.mp hmem with he | hm
          · rw [he]
            exact hs c (by simp)
          · exact hk _ _ (fun e he2 => hs e (by simp [he2])) _ hres2 d hm
        · rw [if_neg hf] at h
          simp at h
    | seq a b =>
      simp only [mrx] at h
      exact ih a p s _ hs
        (fun p2 s2 hs2 res2 h2 => ih b p2 s2 k hs2 hk res2 h2) res h
    | alt a b =>
      simp only [mrx] at h
      cases hm : mrx n a p s k with
      | some r2 =>
        rw [hm] at h
        cases h
        exact ih a p s k hs hk res hm
      | none =>
        rw [hm] at h
        exact ih b p s k hs hk res h
    | star r =>
      simp only [mrx] at h
      cases hm : mrx n r p s
          (fun p2 s2 => if s2.length < s.length then mrx n (.star r) p2 s2 k else none) with
      | some r2 =>
        rw [hm] at h
        cases h
        refine ih r p s _ hs ?_ res hm
        intro p2 s2 hs2 res2 h2
        by_cases hlt : s2.length < s.length
        · rw [if_pos hlt] at h2
          exact ih (.star r) p2 s2 k hs2 hk res2 h2
        · rw [if_neg hlt] at h2
          simp at h2
      | none =>
        rw [hm] at h
        exact hk _ _ hs _ h
    | wb =>
      simp only [mrx] at h
      by_cases hb : atBoundary p s
      · rw [if_pos hb] at h
        exact hk _ _ hs _ h
      · rw [if_neg hb] at h
        simp at h

theorem searchFrom_avoid (ch : Char) (r : Rx) (hr : rxAvoid ch r = true) :
    ∀ (s : List Char) (p : Option Char) (res : List Char),
      searchFrom r p s = some res → ch ∉ res := by
  have htop : ∀ (p2 : Option Char) (s2 : List Char) (res : List Char),
      (fun (_ : Option Char) (_ : List Char) => some ([] : List Char)) p2 s2 = some res →
      ch ∉ res := by
    intro p2 s2 res h
    cases h
    simp
  intro s
  induction s with
  | nil =>
    intro p res h
    exact mrx_avoid ch _ r p [] _ hr htop res h
  | cons c t ih =>
    intro p res h
    simp only [searchFrom] at h
    cases hm : mrx (mrxFuel r (c :: t)) r p (c :: t) (fun _ _ => some []) with
    | some r2 =>
      rw [hm] at h
      cases h
      exact mrx_avoid ch _ r p (c :: t) _ hr htop res hm
    | none =>
      rw [hm] at h
      exact ih (some c) res h

theorem searchFrom_chars (P : Char → Prop) (r : Rx) :
    ∀ (s : List Char), (∀ c ∈ s, P c) → ∀ (p : Option Char) (res : List Char),
      searchFrom r p s = some res → ∀ c ∈ res, P c := by
  have htop : ∀ (p2 : Option Char) (s2 : List Char), (∀ c ∈ s2, P c) →
      ∀ (res : List Char),
      (fun (_ : Option Char) (_ : List Char) => some ([] : List Char)) p2 s2 = some res →
      ∀ c ∈ res, P c := by
    intro p2 s2 _ res h
    cases h
    simp
  intro s
  induction s with
  | nil =>
    intro hs p res h
    exact mrx_chars P _ r p [] _ hs htop res h
  | cons c t ih =>
    intro hs p res h
    simp only [searchFrom] at h
    cases hm : mrx (mrxFuel r (c :: t)) r p (c :: t) (fun _ _ => some []) with
    | some r2 =>
      rw [hm] at h
      cases h
      exact mrx_chars P _ r p (c :: t) _ hs htop res hm
    | none =>
      rw [hm] at h
      exact ih (fun e he => hs e (by simp [he])) (some c) res h

theorem stripLabel_subset (s : List Char) : stripLabel s ⊆ s := by
  unfold stripLabel
  cases mrx (mrxFuel labelRx s) labelRx none s (fun _ _ => some []) with
  | some con => exact List.drop_subset _ _
  | none => exact fun _ h => h

theorem stripChars_subset (l : List Char) : stripChars l ⊆ l := by
  intro c hc
  unfold stripChars at hc
  rw [List.mem_reverse] at hc
  have h1 := (List.dropWhile_sublist _).subset hc
  rw [List.mem_reverse] at h1
  exact (List.dropWhile_sublist _).subset h1

theorem servingLoop_shape :
    ∀ (pats : List Rx) (t : List Char) (res : String),
      servingLoop t pats = some res →
      ∃ p grp, p ∈ pats ∧ reSearch p t = some grp ∧
        res = String.mk (stripChars (stripLabel grp)) := by
  intro pats
  induction pats with
  | nil => intro t res h; simp [servingLoop] at h
  | cons hd tl ih =>
    intro t res h
    simp only [servingLoop] at h
    cases hm : reSearch hd t with
    | some grp =>
      rw [hm] at h
      cases h
      exact ⟨hd, grp, by simp, hm, rfl⟩
    | none =>
      rw [hm] at h
      obtain ⟨p, grp, hp, hg, he⟩ := ih t res h
      exact ⟨p, grp, by simp [hp], hg, he⟩

theorem toLower_bounds (n : Nat) (h1 : 65 ≤ n) (h2 : n ≤ 90) :
    (Char.ofNat (n + 32)).toLower = Char.ofNat (n + 32) ∧ Char.ofNat (n + 32) ≠ '\n' := by
  interval_cases n <;> exact ⟨by decide, by decide⟩

theorem toLower_eq_of_upper (c : Char) (hc : c.toNat ≥ 65 ∧ c.toNat ≤ 90) :
    c.toLower = Char.ofNat (c.toNat + 32) := by
  show (if c.toNat ≥ 65 ∧ c.toNat ≤ 90 then Char.ofNat (c.toNat + 32) else c) = _
  rw [if_pos hc]

theorem toLower_eq_of_not_upper (c : Char) (hc : ¬(c.toNat ≥ 65 ∧ c.toNat ≤ 90)) :
    c.toLower = c := by
  show (if c.toNat ≥ 65 ∧ c.toNat ≤ 90 then Char.ofNat (c.toNat + 32) else c) = _
  rw [if_neg hc]

theorem toLower_toLower (c : Char) : c.toLower.toLower = c.toLower := by
  by_cases hc : c.toNat ≥ 65 ∧ c.toNat ≤ 90
  · rw [toLower_eq_of_upper c hc]
    exact (toLower_bounds c.toNat hc.1 hc.2).1
  · rw [toLower_eq_of_not_upper c hc, toLower_eq_of_not_upper c hc]

theorem toLower_ne_nl (c : Char) (h : c ≠ '\n') : c.toLower ≠ '\n' := by
  by_cases hc : c.toNat ≥ 65 ∧ c.toNat ≤ 90
  · rw [toLower_eq_of_upper c hc]
    exact (toLower_bounds c.toNat hc.1 hc.2).2
  · rw [toLower_eq_of_not_upper c hc]
    exact h

theorem foldl_pushIf (p : String → Bool) :
    ∀ (l acc : List String),
      l.foldl (fun a x => if p x then a ++ [x] else a) acc = acc ++ l.filter p := by
  intro l
  induction l with
  | nil => simp
  | cons hd tl ih =>
    intro acc
    by_cases hp : p hd
    · simp [List.filter_cons, hp, ih, List.append_assoc]
    · simp [List.filter_cons, hp, ih]

theorem pySlice_min (lines : List String) (a b : Nat) :
    pySlice lines a (min lines.length b) = pySlice lines a b := by
  unfold pySlice
  have h := List.take_take b lines.length lines
  rw [List.take_of_length_le (le_refl lines.length)] at h
  rw [min_comm, ← h]

theorem pySlice_empty_of_le (lines : List String) (a b : Nat) (h : lines.length ≤ a) :
    pySlice lines a b = [] := by
  unfold pySlice
  apply List.drop_eq_nil_of_le
  calc (lines.take b).length = b ⊓ lines.length := List.length_take b lines
    _ ≤ lines.length := min_le_right _ _
    _ ≤ a := h

/-! ### Claims -/

/-- Claim C9: for each of the lines `"220 calories"`, `"Calories: 220"`
and `"Energy (kcal): 220"`, calorie extraction returns `"220"`. -/
theorem claim_C9_calorie_extraction :
    extract_number "220 calories" caloriesPatterns = some "220" ∧
    extract_number "Calories: 220" caloriesPatterns = some "220" ∧
    extract_number "Energy (kcal): 220" caloriesPatterns = some "220" :=
  ⟨rfl, rfl, rfl⟩

/-- Claim C1 (counterexample): processing the four-line page of the claim
against an empty registry does not produce a registry whose single key is
`"Protein Bar"`; three separate entries are created instead. -/
theorem claim_C1_counterexample :
    (processLines ["Protein Bar", "Calories: 200", "Protein: 10g", "Carbs: 20g"]
        [] "u" "t").reg.map Prod.fst ≠ ["Protein Bar"] := by
  decide

/-- Claim C1 (amended): processing that page against an empty registry
touches 3 records but the three data-bearing lines do not merge: each
upsert stores only the current line's fields, and because the fresh-value
signature renders absent fields as `"NA"` while stored records hold
`"N/A"`, each following line spawns a variant.  The result is the three
entries `"Protein Bar"` (calories 200), `"Protein Bar (Variant 1)"`
(protein 10) and `"Protein Bar (Variant 1) (Variant 1)"` (carbs 20). -/
theorem claim_C1_amended (url now : String) :
    processLines ["Protein Bar", "Calories: 200", "Protein: 10g", "Carbs: 20g"] [] url now =
      { current := some "Protein Bar (Variant 1) (Variant 1)",
        reg := [("Protein Bar", ⟨"Protein Bar", "200", "N/A", "N/A", "N/A", "N/A", now, url⟩),
                ("Protein Bar (Variant 1)",
                 ⟨"Protein Bar (Variant 1)", "N/A", "10", "N/A", "N/A", "N/A", now, url⟩),
                ("Protein Bar (Variant 1) (Variant 1)",
                 ⟨"Protein Bar (Variant 1) (Variant 1)", "N/A", "N/A", "20", "N/A", "N/A",
                  now, url⟩)],
        count := 3 } := rfl

/-- Claim C2: reconciling the same `(name, values)` pair twice is *not*
idempotent when a numeric field is absent: the second reconciliation of
`("Bar", calories 100, rest absent)` creates `"Bar (Variant 1)"`,
because the fresh-value signature spells absent fields `"NA"` while the
stored record holds `"N/A"`.  This contradicts the claim (and the
code's own intent of reusing variants only for *different* values). -/
theorem claim_C2_code_bug_eval :
    (let r1 := (reconcile [] "Bar" (some "100") none none none none "u1" "t1").2
     let p2 := reconcile r1 "Bar" (some "100") none none none none "u2" "t2"
     (p2.1, p2.2.map Prod.fst)) = ("Bar (Variant 1)", ["Bar", "Bar (Variant 1)"]) := rfl

/-- Claim C6 (counterexample): with the data line at index 0 and the only
qualifying name at index 5, the claimed rule (following window of five
lines, indices 1 through 5) returns `"Tasty Snack"`, but the code scans
only indices 1 through 4 (`lines[i+1 : i+5]`) and returns nothing. -/
theorem claim_C6_counterexample :
    find_product_name ["Calories: 100", "ab", "cd", "ef", "gh", "Tasty Snack"] 0 = none ∧
    inferNameDescr ["Calories: 100", "ab", "cd", "ef", "gh", "Tasty Snack"] 0 5 =
      some "Tasty Snack" := by
  constructor
  · decide
  · decide

/-- Claim C6 (amended): name inference takes the last qualifying trimmed
line (non-empty, longer than 3 characters, no digit) among the up-to-5
lines preceding the data line, and if that scan is empty, among the
up-to-FOUR lines immediately following it (indices i+1 through i+4);
it returns none when both scans are empty. -/
theorem claim_C6_amended (lines : List String) (i : Nat) :
    find_product_name lines i = inferNameDescr lines i 4 := by
  unfold find_product_name inferNameDescr candidateLines
  rw [foldl_pushIf nameOk, List.nil_append]
  by_cases hp : ((pySlice lines (i - 5) i).map pyStrip).filter nameOk = []
  · by_cases hi : i + 1 < lines.length
    · have h45 : i + 1 + 4 = i + 5 := by omega
      simp only [hp, List.isEmpty_nil, Bool.true_and, hi, decide_True, if_true,
        foldl_pushIf nameOk, List.nil_append, List.getLast?_nil, h45]
      rw [pySlice_min lines (i + 1) (i + 5)]
    · simp only [hp, List.isEmpty_nil, Bool.true_and, hi, decide_False,
        Bool.false_eq_true, if_false, List.getLast?_nil]
      rw [pySlice_empty_of_le lines (i + 1) (i + 1 + 4) (by omega)]
      simp
  · have hne : (((pySlice lines (i - 5) i).map pyStrip).filter nameOk).isEmpty = false := by
      simp [List.isEmpty_iff, hp]
    simp only [hne, Bool.false_and, Bool.false_eq_true, if_false]
    cases hl : (((pySlice lines (i - 5) i).map pyStrip).filter nameOk).getLast? with
    | none => exact absurd (List.getLast?_eq_none_iff.mp hl) hp
    | some n => rfl

/-- Claim C4 (counterexample): a blank line does not reset the carry-over
product: after `["Alpha Snack", "Calories: 100", ""]` the current product
is still `"Alpha Snack"`, because `if not line: continue` skips blank
lines before the reset branch is reached. -/
theorem claim_C4_counterexample :
    (processLines ["Alpha Snack", "Calories: 100", ""] [] "u" "t").current ≠ none ∧
    (processLines ["Alpha Snack", "Calories: 100", ""] [] "u" "t").current =
      some "Alpha Snack" := by
  constructor
  · decide
  · decide

/-- Claim C4 (amended): a *blank* line leaves the page-processor state
(including `currentProduct`) unchanged, while a non-blank line from
which no field is extracted resets `currentProduct` to absent. -/
theorem claim_C4_amended (lines : List String) (url now : String) (st : PageState)
    (i : Nat) (rawLine : String) :
    (pyStrip rawLine = "" → procLine lines url now st i rawLine = st) ∧
    (pyStrip rawLine ≠ "" →
      pyTruthy (extract_number (pyStrip rawLine) caloriesPatterns) = false →
      pyTruthy (extract_number (pyStrip rawLine) proteinPatterns) = false →
      pyTruthy (extract_number (pyStrip rawLine) carbsPatterns) = false →
      pyTruthy (extract_number (pyStrip rawLine) fatPatterns) = false →
      pyTruthy (extract_serving_size (pyStrip rawLine) servingPatterns) = false →
      procLine lines url now st i rawLine = { st with current := none }) := by
  constructor
  · intro h
    simp [procLine, h]
  · intro hne h1 h2 h3 h4 h5
    simp [procLine, hne, h1, h2, h3, h4, h5]

/-- Witness for claim C4 (amended): on a state carrying `"X"`, the blank
line `"  "` changes nothing and the fieldless line `"hello"` clears the
carry-over. -/
theorem claim_C4_amended_witness :
    procLine [] "u" "t" ⟨some "X", [], 0⟩ 0 "  " = ⟨some "X", [], 0⟩ ∧
    procLine [] "u" "t" ⟨some "X", [], 0⟩ 0 "hello" = ⟨none, [], 0⟩ :=
  ⟨(claim_C4_amended [] "u" "t" ⟨some "X", [], 0⟩ 0 "  ").1 (by decide),
   (claim_C4_amended [] "u" "t" ⟨some "X", [], 0⟩ 0 "hello").2 (by decide)
     (by decide) (by decide) (by decide) (by decide) (by decide)⟩

/-- Claim C8 (counterexample): an exception while persisting does *not*
yield a zero count: `save_to_csv` catches its own write errors, so the
page processor still returns the count 1 for this page. -/
theorem claim_C8_counterexample :
    (process_page_content (Except.ok ["Granola Bar", "Calories: 100"]) [] "u" "t"
        (Except.error "disk full")).1 ≠ 0 := by
  decide

/-- Claim C8 (amended): an exception while obtaining or processing the
page's text is caught at page level and yields count 0; an exception
while persisting is caught inside the store writer and leaves the
returned count (the per-page loop result) unchanged. -/
theorem claim_C8_amended (e : String) (reg : Registry) (url now : String)
    (w : Except String Unit) (lines : List String) :
    (process_page_content (Except.error e) reg url now w).1 = 0 ∧
    (process_page_content (Except.ok lines) reg url now w).1 =
      (processLines lines reg url now).count := by
  constructor
  · rfl
  · by_cases h : (processLines lines reg url now).count > 0 <;>
      simp [process_page_content, h]

/-- Claim C7 (counterexample): an upsert with an absent fat field stores
the sentinel string `"N/A"`, not `"not available"`. -/
theorem claim_C7_counterexample :
    (dictGet (reconcile [] "Foo" (some "100") none none none none "u" "t").2 "Foo").map
        ProductRecord.fat = some "N/A" ∧
    (dictGet (reconcile [] "Foo" (some "100") none none none none "u" "t").2 "Foo").map
        ProductRecord.fat ≠ some "not available" := by
  constructor
  · rfl
  · decide

/-- Claim C7 (amended): every upsert performed by the reconciler stores a
record whose `last_updated` is the current timestamp and `source_url` the
page's navigation identifier, and every absent numeric or serving field
is stored as the sentinel `"N/A"` — never empty. -/
theorem claim_C7_amended (reg : Registry) (base : String)
    (cal prot carb fatv serv : Option String) (url now : String) :
    ∃ r : ProductRecord,
      dictGet (reconcile reg base cal prot carb fatv serv url now).2
        (reconcile reg base cal prot carb fatv serv url now).1 = some r ∧
      r.last_updated = now ∧ r.source_url = url ∧
      (cal = none → r.calories = "N/A") ∧ (prot = none → r.protein = "N/A") ∧
      (carb = none → r.carbs = "N/A") ∧ (fatv = none → r.fat = "N/A") ∧
      (serv = none → r.serving_size = "N/A") ∧
      r.calories ≠ "" ∧ r.protein ≠ "" ∧ r.carbs ≠ "" ∧ r.fat ≠ "" ∧
      r.serving_size ≠ "" := by
  refine ⟨mkRecord (reconcile reg base cal prot carb fatv serv url now).1
      cal prot carb fatv serv url now,
    dictGet_dictSet_self reg _ _, rfl, rfl, ?_, ?_, ?_, ?_, ?_,
    orDefault_ne_empty cal, orDefault_ne_empty prot, orDefault_ne_empty carb,
    orDefault_ne_empty fatv, orDefault_ne_empty serv⟩
  all_goals (intro h; subst h; rfl)

/-- Witness for claim C7 (amended): reconciling `"Foo"` with every field
absent stores `"N/A"` in all five value fields, stamped with the given
timestamp and URL. -/
theorem claim_C7_amended_witness :
    ∃ r : ProductRecord,
      dictGet (reconcile [] "Foo" none none none none none "u" "t").2
        (reconcile [] "Foo" none none none none none "u" "t").1 = some r ∧
      r.last_updated = "t" ∧ r.source_url = "u" ∧ r.calories = "N/A" ∧
      r.protein = "N/A" ∧ r.carbs = "N/A" ∧ r.fat = "N/A" ∧ r.serving_size = "N/A" := by
  obtain ⟨r, h1, h2, h3, h4, h5, h6, h7, h8, _, _, _, _, _⟩ :=
    claim_C7_amended [] "Foo" none none none none none "u" "t"
  exact ⟨r, h1, h2, h3, h4 rfl, h5 rfl, h6 rfl, h7 rfl, h8 rfl⟩

/-- Claim C5: saving a registry to the store and loading it back yields
an equal registry, field for field (sentinels included), for every
registry whose records carry their own key as `name` and whose keys are
distinct — both invariants hold for every registry the program builds.
The store serialization itself is the external pandas collaborator,
modelled from the spec as verbatim row storage. -/
theorem claim_C5_roundtrip (reg : Registry)
    (hname : ∀ p ∈ reg, (Prod.snd p).name = p.1)
    (hnodup : (reg.map Prod.fst).Nodup)
    (rows : List ProductRecord) (hsave : save_to_csv reg (Except.ok ()) = some rows) :
    load_existing_data rows = reg := by
  have hrows : reg.map Prod.snd = rows := by
    simpa [save_to_csv] using hsave
  subst hrows
  unfold load_existing_data
  rw [load_save_aux reg hname hnodup [] (fun p _ => rfl)]
  simp

/-- Witness for claim C5: a two-record registry (one record holding an
`"N/A"` sentinel) survives the save/load round trip unchanged. -/
theorem claim_C5_roundtrip_witness :
    load_existing_data
        [⟨"Apple Pie", "300", "4", "50", "12", "1 slice", "t1", "u1"⟩,
         ⟨"Berry Tart", "250", "3", "40", "9", "N/A", "t2", "u2"⟩] =
      [("Apple Pie", ⟨"Apple Pie", "300", "4", "50", "12", "1 slice", "t1", "u1"⟩),
       ("Berry Tart", ⟨"Berry Tart", "250", "3", "40", "9", "N/A", "t2", "u2"⟩)] :=
  claim_C5_roundtrip
    [("Apple Pie", ⟨"Apple Pie", "300", "4", "50", "12", "1 slice", "t1", "u1"⟩),
     ("Berry Tart", ⟨"Berry Tart", "250", "3", "40", "9", "N/A", "t2", "u2"⟩)]
    (by decide) (by decide) _ rfl

theorem strAppend_left_cancel {a s t : String} (h : a ++ s = a ++ t) : s = t := by
  apply String.ext
  have hd := congrArg String.data h
  simp only [String.data_append] at hd
  exact List.append_cancel_left hd

theorem orDefault_some_ne (s d : String) (h : s ≠ "") : orDefault (some s) d = s := by
  simp [orDefault, h]

/-- Claim C3 (counterexample): with value-sets carrying only calories
(the other fields absent), the third reconciliation of
`("Bar", calories 100)` does not update `"Bar"`: it creates
`"Bar (Variant 2)"`, because the fresh signature spells absent fields
`"NA"` while stored records hold `"N/A"`. -/
theorem claim_C3_counterexample :
    (let r1 := (reconcile [] "Bar" (some "100") none none none none "u1" "t1").2
     let r2 := (reconcile r1 "Bar" (some "200") none none none none "u2" "t2").2
     let p3 := reconcile r2 "Bar" (some "100") none none none none "u3" "t3"
     (p3.1, p3.2.map Prod.fst)) =
      ("Bar (Variant 2)", ["Bar", "Bar (Variant 1)", "Bar (Variant 2)"]) := rfl

/-- Claim C3 (amended): the claimed variant-chain scenario holds whenever
the value-sets have all four numeric fields present (non-empty).  Step 2
produces exactly the entries `"Bar"` and `"Bar (Variant 1)"` with fields
matching their inputs, and step 3 updates the original `"Bar"` entry in
place (refreshing its timestamp and URL) without creating a
`"Variant 2"`. -/
theorem claim_C3_amended (p c f : String) (hp : p ≠ "") (hc : c ≠ "") (hf : f ≠ "")
    (s1 s2 s3 : Option String) (u1 t1 u2 t2 u3 t3 : String) :
    (let r1 := (reconcile [] "Bar" (some "100") (some p) (some c) (some f) s1 u1 t1).2
     reconcile r1 "Bar" (some "200") (some p) (some c) (some f) s2 u2 t2) =
      ("Bar (Variant 1)",
       [("Bar", mkRecord "Bar" (some "100") (some p) (some c) (some f) s1 u1 t1),
        ("Bar (Variant 1)",
         mkRecord "Bar (Variant 1)" (some "200") (some p) (some c) (some f) s2 u2 t2)]) ∧
    (let r1 := (reconcile [] "Bar" (some "100") (some p) (some c) (some f) s1 u1 t1).2
     let r2 := (reconcile r1 "Bar" (some "200") (some p) (some c) (some f) s2 u2 t2).2
     reconcile r2 "Bar" (some "100") (some p) (some c) (some f) s3 u3 t3) =
      ("Bar",
       [("Bar", mkRecord "Bar" (some "100") (some p) (some c) (some f) s3 u3 t3),
        ("Bar (Variant 1)",
         mkRecord "Bar (Variant 1)" (some "200") (some p) (some c) (some f) s2 u2 t2)]) := by
  have hsig12 : recordSig (mkRecord "Bar" (some "100") (some p) (some c) (some f) s1 u1 t1) ≠
      valuesSig (some "200") (some p) (some c) (some f) := by
    unfold recordSig valuesSig mkRecord
    simp only [orDefault_some_ne _ _ hp, orDefault_some_ne _ _ hc, orDefault_some_ne _ _ hf,
      show orDefault (some "100") "N/A" = "100" from rfl,
      show orDefault (some "200") "NA" = "200" from rfl]
    intro h
    simp only [strAppend_assoc] at h
    exact ne_append_of_ne (by decide) (by decide) _ _ (strAppend_left_cancel h)
  have hsig13 : recordSig (mkRecord "Bar" (some "100") (some p) (some c) (some f) s1 u1 t1) =
      valuesSig (some "100") (some p) (some c) (some f) := by
    unfold recordSig valuesSig mkRecord
    simp only [orDefault_some_ne _ _ hp, orDefault_some_ne _ _ hc, orDefault_some_ne _ _ hf,
      show orDefault (some "100") "N/A" = "100" from rfl,
      show orDefault (some "100") "NA" = "100" from rfl]
  have e1 : (reconcile [] "Bar" (some "100") (some p) (some c) (some f) s1 u1 t1).2 =
      [("Bar", mkRecord "Bar" (some "100") (some p) (some c) (some f) s1 u1 t1)] := rfl
  have e2 : reconcile [("Bar", mkRecord "Bar" (some "100") (some p) (some c) (some f) s1 u1 t1)]
      "Bar" (some "200") (some p) (some c) (some f) s2 u2 t2 =
      ("Bar (Variant 1)",
       [("Bar", mkRecord "Bar" (some "100") (some p) (some c) (some f) s1 u1 t1),
        ("Bar (Variant 1)",
         mkRecord "Bar (Variant 1)" (some "200") (some p) (some c) (some f) s2 u2 t2)]) := by
    unfold reconcile
    rw [show dictGet
        [("Bar", mkRecord "Bar" (some "100") (some p) (some c) (some f) s1 u1 t1)] "Bar" =
        some (mkRecord "Bar" (some "100") (some p) (some c) (some f) s1 u1 t1) from rfl]
    dsimp only
    rw [if_neg hsig12]
    rfl
  have e3 : reconcile
      [("Bar", mkRecord "Bar" (some "100") (some p) (some c) (some f) s1 u1 t1),
       ("Bar (Variant 1)",
        mkRecord "Bar (Variant 1)" (some "200") (some p) (some c) (some f) s2 u2 t2)]
      "Bar" (some "100") (some p) (some c) (some f) s3 u3 t3 =
      ("Bar",
       [("Bar", mkRecord "Bar" (some "100") (some p) (some c) (some f) s3 u3 t3),
        ("Bar (Variant 1)",
         mkRecord "Bar (Variant 1)" (some "200") (some p) (some c) (some f) s2 u2 t2)]) := by
    unfold reconcile
    rw [show dictGet
        [("Bar", mkRecord "Bar" (some "100") (some p) (some c) (some f) s1 u1 t1),
         ("Bar (Variant 1)",
          mkRecord "Bar (Variant 1)" (some "200") (some p) (some c) (some f) s2 u2 t2)] "Bar" =
        some (mkRecord "Bar" (some "100") (some p) (some c) (some f) s1 u1 t1) from rfl]
    dsimp only
    rw [if_pos hsig13]
    rfl
  constructor
  · show reconcile (reconcile [] "Bar" (some "100") (some p) (some c) (some f) s1 u1 t1).2
        "Bar" (some "200") (some p) (some c) (some f) s2 u2 t2 = _
    rw [e1]
    exact e2
  · show reconcile (reconcile (reconcile [] "Bar" (some "100") (some p) (some c) (some f)
        s1 u1 t1).2 "Bar" (some "200") (some p) (some c) (some f) s2 u2 t2).2
        "Bar" (some "100") (some p) (some c) (some f) s3 u3 t3 = _
    rw [e1, congrArg Prod.snd e2]
    exact e3

/-- Witness for claim C3 (amended): the scenario with the concrete
all-present value-sets (protein 5, carbs 10, fat 2). -/
theorem claim_C3_amended_witness :
    (let r1 := (reconcile [] "Bar" (some "100") (some "5") (some "10") (some "2")
        none "u1" "t1").2
     let r2 := (reconcile r1 "Bar" (some "200") (some "5") (some "10") (some "2")
        none "u2" "t2").2
     reconcile r2 "Bar" (some "100") (some "5") (some "10") (some "2") none "u3" "t3") =
      ("Bar",
       [("Bar", mkRecord "Bar" (some "100") (some "5") (some "10") (some "2") none "u3" "t3"),
        ("Bar (Variant 1)",
         mkRecord "Bar (Variant 1)" (some "200") (some "5") (some "10") (some "2")
           none "u2" "t2")]) :=
  (claim_C3_amended "5" "10" "2" (by decide) (by decide) (by decide)
    none none none "u1" "t1" "u2" "t2" "u3" "t3").2

/-- Claim C10: whenever serving-size extraction returns a value for an
input line (a string containing no line break), that value contains no
comma and no line break and is entirely lower-case (ASCII lower-casing
fixes every character): the span is taken from the case-folded line and
its character classes exclude commas and line breaks. -/
theorem claim_C10_serving_shape (line : String) (hnl : '\n' ∉ line.data) (res : String)
    (h : extract_serving_size line servingPatterns = some res) :
    (∀ ch ∈ res.data, ch.toLower = ch) ∧ ',' ∉ res.data ∧ '\n' ∉ res.data := by
  unfold extract_serving_size at h
  by_cases hemp : line = ""
  · rw [if_pos hemp] at h
    cases h
  · rw [if_neg hemp] at h
    obtain ⟨pat, grp, hpat, hsearch, hres⟩ := servingLoop_shape servingPatterns _ res h
    have hgrpP : ∀ ch ∈ grp, ch.toLower = ch ∧ ch ≠ '\n' := by
      refine searchFrom_chars (fun ch => ch.toLower = ch ∧ ch ≠ '\n') pat
        (lowerStr line).data ?_ none grp hsearch
      intro ch hch
      obtain ⟨c0, hc0, he⟩ := List.mem_map.mp hch
      rw [← he]
      exact ⟨toLower_toLower c0, toLower_ne_nl c0 (fun hne => hnl (hne ▸ hc0))⟩
    have hgrpC : ',' ∉ grp := by
      have hav : ∀ pt ∈ servingPatterns, rxAvoid ',' pt = true := by decide
      exact searchFrom_avoid ',' pat (hav pat hpat) _ none grp hsearch
    have hsub : res.data ⊆ grp := by
      rw [hres]
      intro ch hch
      exact stripLabel_subset grp (stripChars_subset _ hch)
    exact ⟨fun ch hch => (hgrpP ch (hsub hch)).1,
      fun hch => hgrpC (hsub hch),
      fun hch => (hgrpP '\n' (hsub hch)).2 rfl⟩

/-- Witness for claim C10: the line `"Serving Size: 2 bars"` extracts to
`"2 bars"`, which satisfies all three shape properties. -/
theorem claim_C10_serving_shape_witness :
    (∀ ch ∈ ("2 bars" : String).data, ch.toLower = ch) ∧
    ',' ∉ ("2 bars" : String).data ∧ '\n' ∉ ("2 bars" : String).data :=
  claim_C10_serving_shape "Serving Size: 2 bars" (by decide) "2 bars" (by decide)

end Scrape
